import Mathlib

/-!
Verification development for the 2022-INFORMS-Demo task-assignment solver.

The repository validates raw tabular data (`src/solver/data.py`), transforms
it into normalized model tables, formulates a binary assignment MIP twice
(once for Gurobi in `src/solver/model.py`, once for OR-Tools in
`src/solver/model-ortools.py`), solves it, and extracts the selected
assignments.

Shallow embedding conventions:
* a pandas DataFrame is a `Frame`: an ordered column-name list plus an
  ordered list of (index key, row) pairs, a row being an association list
  from column name to cell;
* a cell is `Option ℚ`; `none` plays the role of a float NaN produced by a
  failed left join or an empty spreadsheet cell (NaN arithmetic propagates
  through `Option.bind`/`Option.map`, and NaN comparisons are false);
* task and resource keys are `String`s (the spreadsheet index values);
* Python-set enumeration order (hash-seed dependent) is an explicit
  parameter `setEnum`, constrained only to enumerate the set's elements;
* f-string error messages are embedded structurally as `ErrMsg`, each
  constructor carrying exactly the data the corresponding f-string
  interpolates (the surrounding literal text is fixed);
* wall-clock build/solve durations are omitted from `SolutionData`
  (they come from `time()` and carry no logical content);
* the external solvers are oracles: a numeric status code plus a solved
  value per variable index.
-/

/-- Association-list lookup with decidable key equality (the first matching
entry wins), used to read a cell of a row and to model index lookups. -/
def alookup {σ β : Type} [DecidableEq σ] : List (σ × β) → σ → Option β
  | [], _ => none
  | x :: xs, k => if x.1 = k then some x.2 else alookup xs k

/-- Cells of the embedded tables: `some q` is a numeric value, `none` is NaN
(missing after a failed left join, or an empty cell). -/
abbrev Cell := Option ℚ

/-- A row of a data table: an association list from column name to cell. -/
abbrev TRow := List (String × Cell)

/-- Reading a named column of a row; a missing column reads as NaN. -/
def TRow.get (r : TRow) (c : String) : Cell := (alookup r c).getD none

/-- Setting a column of a row: overwrite in place when the column exists
(pandas column assignment), append at the end otherwise. -/
def TRow.set (r : TRow) (c : String) (v : Cell) : TRow :=
  if r.any (fun p => p.1 = c) then
    r.map (fun p => if p.1 = c then (c, v) else p)
  else r ++ [(c, v)]

/-- An embedded pandas DataFrame: ordered column names and ordered rows,
each row paired with its index key. -/
structure Frame (κ : Type) where
  cols : List String
  rows : List (κ × TRow)
deriving DecidableEq

/-- Index of a frame, in row order (may contain duplicates). -/
def Frame.keys {κ : Type} (f : Frame κ) : List κ := f.rows.map Prod.fst

/-- A named column of a frame as a pandas Series: (index key, cell) in row
order. -/
def Frame.col {κ : Type} (f : Frame κ) (c : String) : List (κ × Cell) :=
  f.rows.map (fun r => (r.1, r.2.get c))

/-- Sum of a Series the way pandas `.sum()` computes it: NaN cells are
skipped (`skipna=True`), an all-NaN or empty Series sums to 0. -/
def seriesSum {κ : Type} (s : List (κ × Cell)) : ℚ :=
  s.foldl (fun a x => a + x.2.getD 0) 0

/-- Left join of a frame with another frame on a key function of the left
index (pandas `merge(how="left", left_on=…, right_index=True)`): every
left row is kept; it is replicated once per matching right row, with the
right row's columns appended; a left row with no match gets NaN in every
right column. -/
def Frame.leftJoinCols {κ σ : Type} [DecidableEq σ]
    (left : Frame κ) (right : Frame σ) (key : κ → σ) : Frame κ :=
  { cols := left.cols ++ right.cols
    rows := left.rows.flatMap (fun lr =>
      match right.rows.filter (fun rr => rr.1 = key lr.1) with
      | [] => [(lr.1, lr.2 ++ right.cols.map (fun c => (c, (none : Cell))))]
      | ms => ms.map (fun rr => (lr.1, lr.2 ++ rr.2))) }

/-- Column projection, pandas `df[[c₁, …]]`: keep the index, restrict every
row to the named columns in the given order. -/
def Frame.project {κ : Type} (f : Frame κ) (cs : List String) : Frame κ :=
  { cols := cs
    rows := f.rows.map (fun r => (r.1, cs.map (fun c => (c, r.2.get c)))) }

/-- Adding a computed column (pandas `df[c] = expr-over-row`). -/
def Frame.setColWith {κ : Type} (f : Frame κ) (c : String)
    (g : TRow → Cell) : Frame κ :=
  { cols := if c ∈ f.cols then f.cols else f.cols ++ [c]
    rows := f.rows.map (fun r => (r.1, r.2.set c (g r.2))) }

/-- Well-formedness of an embedded frame: no duplicate column names, and
every row has exactly the frame's columns in order. -/
def Frame.WF {κ : Type} (f : Frame κ) : Prop :=
  f.cols.Nodup ∧ ∀ r ∈ f.rows, r.2.map Prod.fst = f.cols

instance {κ : Type} (f : Frame κ) : Decidable f.WF := by
  unfold Frame.WF; infer_instance

/-- The normalized model input of `src/solver/data.py`: `ModelData` holds
Tasks projected to {Time}, Resources projected to {AvailableTime}, and the
(Resource, Task)-indexed compatibility table projected to {Cost}. -/
structure ModelData where
  tasks : Frame String
  resources : Frame String
  tasks_for_resource : Frame (String × String)
deriving DecidableEq

/-- The raw input tables of `src/solver/data.py`: Tasks indexed by task key,
Resources indexed by resource key, TaskForResource indexed by the
(Resource, Task) pair. -/
structure RawData where
  tasks : Frame String
  resources : Frame String
  tasks_for_resource : Frame (String × String)
deriving DecidableEq

/-- A validation error message of `RawData.validate`, embedded structurally:
each constructor carries exactly the data the corresponding Python f-string
interpolates.  `capacity` carries the task-time total
(`self.tasks.Time.sum()`) and the raw `AvailableTime` Series that the
second interpolation slot renders (the code writes
`{self.resources.AvailableTime}`, the Series itself, not its sum).
`coverage` carries the list of missing task keys whose comma-join the
message embeds. -/
inductive ErrMsg where
  | capacity (taskTotal : ℚ) (availSeries : List (String × Cell))
  | coverage (missing : List String)
deriving DecidableEq

/-- Distinct task keys appearing in the compatibility table:
`tasks_for_resource.groupby("Task").size().index` as a set of keys. -/
def RawData.tfrTaskKeys (rd : RawData) : List String :=
  (rd.tasks_for_resource.keys.map Prod.snd).dedup

/-- Embedding of `RawData.validate` (src/solver/data.py, lines 66-104).
`setEnum` models the iteration order of the Python set difference
`set(self.tasks.index) - set(…)`, which depends on the interpreter's hash
seed; a faithful enumeration is any permutation of the distinct elements
(`EnumOK`). -/
def RawData.validate (rd : RawData)
    (setEnum : List String → List String) : Bool × List ErrMsg :=
  let taskSum := seriesSum (rd.tasks.col "Time")
  let availSeries := rd.resources.col "AvailableTime"
  let p1 : Bool × List ErrMsg :=
    if taskSum > seriesSum availSeries then
      (false, [ErrMsg.capacity taskSum availSeries])
    else (true, [])
  if rd.tfrTaskKeys.length < rd.tasks.keys.length then
    let missing :=
      setEnum (rd.tasks.keys.filter (fun t => t ∉ rd.tfrTaskKeys))
    (false, p1.2 ++ [ErrMsg.coverage missing])
  else p1

/-- A faithful model of Python set enumeration: it lists exactly the
distinct elements of its input, in some order. -/
def EnumOK (e : List String → List String) : Prop :=
  ∀ l : List String, (e l).Perm l.dedup

/-- Embedding of `RawData.transform_to_model_data` (src/solver/data.py,
lines 106-130): left-join the compatibility table with Tasks on the Task
level, then with `resources[["CostPerHour"]]` on the Resource level,
compute `Cost = CostPerHour * Time` per row, and project the three tables
to {Time}, {AvailableTime}, {Cost}. -/
def RawData.transform_to_model_data (rd : RawData) : ModelData :=
  let t1 := rd.tasks_for_resource.leftJoinCols rd.tasks (fun p => p.2)
  let t2 := t1.leftJoinCols (rd.resources.project ["CostPerHour"])
    (fun p => p.1)
  let t3 := t2.setColWith "Cost" (fun row =>
    (row.get "CostPerHour").bind (fun c => (row.get "Time").map (fun t => c * t)))
  ModelData.mk (rd.tasks.project ["Time"])
    (rd.resources.project ["AvailableTime"])
    (t3.project ["Cost"])

/-- The compatibility pairs of a `ModelData`: the (Resource, Task) index of
its `tasks_for_resource` table, in row order. -/
def ModelData.pairs (md : ModelData) : List (String × String) :=
  md.tasks_for_resource.keys

/-- The `Time` of a task key as the model sees it (`tasks.Time` lookup);
NaN if the key is absent or the cell is empty. -/
def ModelData.timeOf (md : ModelData) (t : String) : Cell :=
  (alookup (md.tasks.col "Time") t).getD none

/-- The `AvailableTime` of a resource key (`resources.AvailableTime`
lookup); NaN if the key is absent or the cell is empty. -/
def ModelData.availOf (md : ModelData) (r : String) : Cell :=
  (alookup (md.resources.col "AvailableTime") r).getD none

/-- Lexicographic comparison of character lists by code point, the order
Python uses to compare the `str` index keys. -/
def lexLe : List Char → List Char → Bool
  | [], _ => true
  | _ :: _, [] => false
  | x :: xs, y :: ys =>
    if x.toNat < y.toNat then true
    else if x.toNat = y.toNat then lexLe xs ys else false

/-- Lexicographic string comparison by code point. -/
def strLe (a b : String) : Bool := lexLe a.data b.data

/-- Insertion into a `strLe`-sorted list. -/
def insertSorted (a : String) : List String → List String
  | [] => [a]
  | b :: bs => if strLe a b then a :: b :: bs else b :: insertSorted a bs

/-- The sorted distinct keys of a pandas `groupby`: group labels are the
distinct keys in ascending order (`sort=True`, the default). -/
def sortKeys (l : List String) : List String :=
  l.dedup.foldr insertSorted []

/-- Comparison operator of a linear constraint. -/
inductive Cmp where
  | le
  | eq
deriving DecidableEq

/-- A linear expression over the decision variables: ordered terms
(variable index, coefficient).  A NaN coefficient records that a NaN
(failed join) flowed into the expression. -/
abbrev LinExpr := List ((String × String) × Cell)

/-- A linear constraint as submitted to a solver backend. -/
structure Constr where
  lhs : LinExpr
  cmp : Cmp
  rhs : Cell
  name : String
deriving DecidableEq

/-- Objective sense; only minimization occurs in this repository. -/
inductive Sense where
  | minimize
deriving DecidableEq

/-- The solution record returned by `build_and_solve`.  The wall-clock
`build_time` and `solve_time` fields are omitted from the embedding; the
assignment table maps each kept (Resource, Task) pair to its `IsAssigned`
cell. -/
structure SolutionData where
  assignments : List ((String × String) × Cell)
deriving DecidableEq

/-- The `Time` of a task key as raw data sees it (`tasks.Time` lookup). -/
def RawData.timeOf (rd : RawData) (t : String) : Cell :=
  (alookup (rd.tasks.col "Time") t).getD none

/-- The `CostPerHour` of a resource key (`resources.CostPerHour`
lookup). -/
def RawData.cphOf (rd : RawData) (r : String) : Cell :=
  (alookup (rd.resources.col "CostPerHour") r).getD none

/-- Well-formed raw tables: the shape the spec's input boundary promises.
Each frame's rows carry exactly its (duplicate-free) columns; the task and
resource indexes are unique (the tables are keyed by them); Tasks has a
`Time` column, Resources has `AvailableTime` and `CostPerHour`; the
compatibility table's own columns do not collide with the columns the
transform merges in (a pandas merge would otherwise suffix and rename
them); and the task/resource attribute cells are numbers, not NaN. -/
def RawData.WF (rd : RawData) : Prop :=
  rd.tasks.WF ∧ rd.resources.WF ∧ rd.tasks_for_resource.WF ∧
  rd.tasks.keys.Nodup ∧ rd.resources.keys.Nodup ∧
  "Time" ∈ rd.tasks.cols ∧
  "AvailableTime" ∈ rd.resources.cols ∧ "CostPerHour" ∈ rd.resources.cols ∧
  (∀ c ∈ rd.tasks.cols, c ∉ rd.tasks_for_resource.cols) ∧
  "CostPerHour" ∉ rd.tasks_for_resource.cols ∧
  "CostPerHour" ∉ rd.tasks.cols ∧
  (∀ r ∈ rd.tasks.rows, ∀ cell ∈ r.2, cell.2.isSome = true) ∧
  (∀ r ∈ rd.resources.rows, ∀ cell ∈ r.2, cell.2.isSome = true)

instance (rd : RawData) : Decidable rd.WF := by
  unfold RawData.WF; infer_instance

/-- Constraint family A as the spec states it: for each resource
appearing in the compatibility table (ascending), the sum over its
compatible pairs of `Time[t] * x[r,t]`, at most `AvailableTime[r]`. -/
def specCapacityConstraints (md : ModelData) : List Constr :=
  (sortKeys (md.pairs.map Prod.fst)).map (fun r =>
    ⟨(md.pairs.filter (fun p => p.1 = r)).map (fun p => (p, md.timeOf p.2)),
      Cmp.le, md.availOf r, "MaxHoursForResource[" ++ r ++ "]"⟩)

/-- Constraint family B as the spec states it: for each task appearing in
the compatibility table (ascending), the sum over its compatible pairs of
`x[r,t]`, equal to 1. -/
def specExclusiveConstraints (md : ModelData) : List Constr :=
  (sortKeys (md.pairs.map Prod.snd)).map (fun t =>
    ⟨(md.pairs.filter (fun p => p.2 = t)).map (fun p => (p, (some 1 : Cell))),
      Cmp.eq, some 1, "AssignEachTaskToOneResource[" ++ t ++ "]"⟩)

namespace GRB

/-- Embedding of `namer` (src/solver/model.py, lines 11-28) applied to a
plain string index (the `isinstance(ind_val, str)` branch). -/
def namer1 (name : String) (k : String) : String :=
  name ++ "[" ++ k ++ "]"

/-- Embedding of `namer` applied to a 2-tuple index: the components are
joined with a comma. -/
def namer2 (name : String) (p : String × String) : String :=
  name ++ "[" ++ p.1 ++ "," ++ p.2 ++ "]"

/-- A Gurobi decision variable: its index pair, its name, and its
`vtype` character (`GRB.BINARY` is the character B). -/
structure Var where
  idx : String × String
  name : String
  vtype : Char
deriving DecidableEq

/-- Embedding of `DemoModel.__build_variables` (src/solver/model.py,
lines 87-95): `solver.addVars(index, vtype=GRB.BINARY, name="x")` creates
one binary variable per index element, auto-named by Gurobi as the base
name subscripted with the comma-joined tuple components. -/
def buildVariables (md : ModelData) : List Var :=
  md.pairs.map (fun p => ⟨p, "x[" ++ p.1 ++ "," ++ p.2 ++ "]", 'B'⟩)

/-- Embedding of
`DemoModel.__build_max_work_hours_for_resources_constraints`
(src/solver/model.py, lines 117-154): left-join the assignment-variable
Series with `tasks.Time` on the Task level, form the per-row term
`eta * x`, group by Resource (groups sorted ascending) summing the terms,
left-join the per-resource bound `gamma = resources.AvailableTime`, and
add one `≤` constraint per resulting row. -/
def buildMaxWorkHours (taskHours : List (String × Cell))
    (availHours : List (String × Cell))
    (assignVars : List ((String × String) × Var)) : List Constr :=
  let cons1 : List ((String × String) × Cell) :=
    assignVars.flatMap (fun pv =>
      match taskHours.filter (fun th => th.1 = pv.1.2) with
      | [] => [(pv.1, (none : Cell))]
      | ms => ms.map (fun th => (pv.1, th.2)))
  let rks := sortKeys (cons1.map (fun c => c.1.1))
  rks.flatMap (fun r =>
    let expr : LinExpr := cons1.filter (fun c => c.1.1 = r)
    match availHours.filter (fun ah => ah.1 = r) with
    | [] => [⟨expr, Cmp.le, none, namer1 "MaxHoursForResource" r⟩]
    | ms => ms.map (fun ah =>
        ⟨expr, Cmp.le, ah.2, namer1 "MaxHoursForResource" r⟩))

/-- Embedding of
`DemoModel.__build_can_only_assign_task_to_one_resource_constraints`
(src/solver/model.py, lines 156-179): group the assignment variables by
Task (groups sorted ascending), sum each group, and add one `== 1`
constraint per task. -/
def buildOneResourcePerTask
    (assignVars : List ((String × String) × Var)) : List Constr :=
  let tks := sortKeys (assignVars.map (fun pv => pv.1.2))
  tks.map (fun t =>
    ⟨(assignVars.filter (fun pv => pv.1.2 = t)).map
        (fun pv => (pv.1, (some 1 : Cell))),
      Cmp.eq, some 1, namer1 "AssignEachTaskToOneResource" t⟩)

/-- Embedding of `DemoModel.__build_objective_function`
(src/solver/model.py, lines 181-196): `obj = costs * assign_vars`
multiplies two Series carrying the same index, which pandas aligns
positionally, and `quicksum` keeps the row order; the objective is
minimized. -/
def buildObjective (costs : List ((String × String) × Cell))
    (assignVars : List ((String × String) × Var)) : LinExpr :=
  (costs.zip assignVars).map (fun cv => (cv.2.1, cv.1.2))

/-- The abstract content of the Gurobi model assembled by
`DemoModel.build_and_solve` before `optimize` is called. -/
structure GModel where
  vars : List Var
  constrs : List Constr
  obj : LinExpr
  sense : Sense
deriving DecidableEq

/-- The model-building part of `DemoModel.build_and_solve`
(src/solver/model.py, lines 41-62): variables, then the two constraint
families in source order, then the minimize objective over
`tasks_for_resource.Cost`. -/
def buildModel (md : ModelData) : GModel :=
  let vars := buildVariables md
  let av := vars.map (fun v => (v.idx, v))
  { vars := vars
    constrs :=
      buildMaxWorkHours (md.tasks.col "Time")
          (md.resources.col "AvailableTime") av
        ++ buildOneResourcePerTask av
    obj := buildObjective (md.tasks_for_resource.col "Cost") av
    sense := Sense.minimize }

/-- Gurobi status codes used by src/solver/model.py:
`GRB.OPTIMAL = 2` and `GRB.INFEASIBLE = 3`. -/
def OPTIMAL : Nat := 2

/-- Gurobi status code `GRB.INFEASIBLE`. -/
def INFEASIBLE : Nat := 3

/-- The status-interpretation and solution-extraction part of
`DemoModel.build_and_solve` (src/solver/model.py, lines 67-85).  The
solver oracle is a status code plus a solved value per variable.  A
DataFrame indexed by the variable index with an all-NaN `IsAssigned`
column is created; on `OPTIMAL` it is filled with the solved values and
filtered by `IsAssigned > 0.1`; on `INFEASIBLE` an exception is raised;
any other status falls through and the all-NaN table is returned. -/
def buildAndSolve (md : ModelData) (status : Nat)
    (val : String × String → ℚ) : Except String SolutionData :=
  let vars := buildVariables md
  let sol0 : List ((String × String) × Cell) :=
    vars.map (fun v => (v.idx, (none : Cell)))
  if status = OPTIMAL then
    let filled := vars.map (fun v => (v.idx, (some (val v.idx) : Cell)))
    let kept := filled.filter (fun pc =>
      match pc.2 with
      | some q => decide ((1 : ℚ) / 10 < q)
      | none => false)
    Except.ok ⟨kept⟩
  else if status = INFEASIBLE then
    Except.error "Model results in infeasible solution."
  else
    Except.ok ⟨sol0⟩

end GRB

namespace ORT

/-- Embedding of `namer` (src/solver/model-ortools.py, lines 10-27)
applied to a plain string index. -/
def namer1 (name : String) (k : String) : String :=
  name ++ "[" ++ k ++ "]"

/-- Embedding of `namer` (src/solver/model-ortools.py) applied to a
2-tuple index: comma-joined components. -/
def namer2 (name : String) (p : String × String) : String :=
  name ++ "[" ++ p.1 ++ "," ++ p.2 ++ "]"

/-- An OR-Tools decision variable: `solver.IntVar(0, 1, name)` records an
integer variable with the given bounds. -/
structure Var where
  idx : String × String
  name : String
  lb : ℚ
  ub : ℚ
  isInt : Bool
deriving DecidableEq

/-- Embedding of `DemoModel.__build_variables`
(src/solver/model-ortools.py, lines 86-92): one
`solver.IntVar(0, 1, namer("x", a))` per element `a` of the
compatibility index. -/
def buildVariables (md : ModelData) : List Var :=
  md.pairs.map (fun p => ⟨p, namer2 "x" p, 0, 1, true⟩)

/-- Embedding of
`DemoModel.__build_max_work_hours_for_resources_constraints`
(src/solver/model-ortools.py, lines 117-155); the pandas pipeline is
identical to the Gurobi file's. -/
def buildMaxWorkHours (taskHours : List (String × Cell))
    (availHours : List (String × Cell))
    (assignVars : List ((String × String) × Var)) : List Constr :=
  let cons1 : List ((String × String) × Cell) :=
    assignVars.flatMap (fun pv =>
      match taskHours.filter (fun th => th.1 = pv.1.2) with
      | [] => [(pv.1, (none : Cell))]
      | ms => ms.map (fun th => (pv.1, th.2)))
  let rks := sortKeys (cons1.map (fun c => c.1.1))
  rks.flatMap (fun r =>
    let expr : LinExpr := cons1.filter (fun c => c.1.1 = r)
    match availHours.filter (fun ah => ah.1 = r) with
    | [] => [⟨expr, Cmp.le, none, namer1 "MaxHoursForResource" r⟩]
    | ms => ms.map (fun ah =>
        ⟨expr, Cmp.le, ah.2, namer1 "MaxHoursForResource" r⟩))

/-- Embedding of
`DemoModel.__build_can_only_assign_task_to_one_resource_constraints`
(src/solver/model-ortools.py, lines 157-180). -/
def buildOneResourcePerTask
    (assignVars : List ((String × String) × Var)) : List Constr :=
  let tks := sortKeys (assignVars.map (fun pv => pv.1.2))
  tks.map (fun t =>
    ⟨(assignVars.filter (fun pv => pv.1.2 = t)).map
        (fun pv => (pv.1, (some 1 : Cell))),
      Cmp.eq, some 1, namer1 "AssignEachTaskToOneResource" t⟩)

/-- Embedding of `DemoModel.__build_objective_function`
(src/solver/model-ortools.py, lines 182-194): `obj = costs * assign_vars`
then `solver.Minimize(obj.sum())`. -/
def buildObjective (costs : List ((String × String) × Cell))
    (assignVars : List ((String × String) × Var)) : LinExpr :=
  (costs.zip assignVars).map (fun cv => (cv.2.1, cv.1.2))

/-- The abstract content of the OR-Tools model assembled by
`DemoModel.build_and_solve` before `Solve` is called. -/
structure OModel where
  vars : List Var
  constrs : List Constr
  obj : LinExpr
  sense : Sense
deriving DecidableEq

/-- The model-building part of `DemoModel.build_and_solve`
(src/solver/model-ortools.py, lines 39-58). -/
def buildModel (md : ModelData) : OModel :=
  let vars := buildVariables md
  let av := vars.map (fun v => (v.idx, v))
  { vars := vars
    constrs :=
      buildMaxWorkHours (md.tasks.col "Time")
          (md.resources.col "AvailableTime") av
        ++ buildOneResourcePerTask av
    obj := buildObjective (md.tasks_for_resource.col "Cost") av
    sense := Sense.minimize }

/-- pywraplp status code `Solver.OPTIMAL = 0`. -/
def OPTIMAL : Nat := 0

/-- pywraplp status code `Solver.INFEASIBLE = 2`. -/
def INFEASIBLE : Nat := 2

/-- The status-interpretation and solution-extraction part of
`DemoModel.build_and_solve` (src/solver/model-ortools.py, lines 66-84);
same shape as the Gurobi file, with pywraplp status codes. -/
def buildAndSolve (md : ModelData) (status : Nat)
    (val : String × String → ℚ) : Except String SolutionData :=
  let vars := buildVariables md
  let sol0 : List ((String × String) × Cell) :=
    vars.map (fun v => (v.idx, (none : Cell)))
  if status = OPTIMAL then
    let filled := vars.map (fun v => (v.idx, (some (val v.idx) : Cell)))
    let kept := filled.filter (fun pc =>
      match pc.2 with
      | some q => decide ((1 : ℚ) / 10 < q)
      | none => false)
    Except.ok ⟨kept⟩
  else if status = INFEASIBLE then
    Except.error "Model results in infeasible solution."
  else
    Except.ok ⟨sol0⟩

end ORT

/-- A solver-agnostic view of a decision variable: index, name, and the set
of values its declaration admits. -/
structure AbsVar where
  idx : String × String
  name : String
  domain : Set ℚ

/-- A solver-agnostic view of a formulated model. -/
structure AbsModel where
  vars : List AbsVar
  constrs : List Constr
  obj : LinExpr
  sense : Sense

/-- The set of values a Gurobi `vtype` admits; only `GRB.BINARY` (the
character B) occurs in this repository. -/
def GRB.vtypeDomain (c : Char) : Set ℚ :=
  if c = 'B' then {q : ℚ | q = 0 ∨ q = 1} else Set.univ

/-- Abstraction of a Gurobi variable. -/
def GRB.Var.toAbs (v : GRB.Var) : AbsVar :=
  ⟨v.idx, v.name, GRB.vtypeDomain v.vtype⟩

/-- Abstraction of a Gurobi model. -/
def GRB.GModel.toAbs (m : GRB.GModel) : AbsModel :=
  ⟨m.vars.map GRB.Var.toAbs, m.constrs, m.obj, m.sense⟩

/-- Abstraction of an OR-Tools variable: `IntVar(lb, ub, …)` admits the
integers between its bounds. -/
def ORT.Var.toAbs (v : ORT.Var) : AbsVar :=
  ⟨v.idx, v.name,
    {q : ℚ | v.lb ≤ q ∧ q ≤ v.ub ∧ (v.isInt = true → ∃ n : ℤ, (n : ℚ) = q)}⟩

/-- Abstraction of an OR-Tools model. -/
def ORT.OModel.toAbs (m : ORT.OModel) : AbsModel :=
  ⟨m.vars.map ORT.Var.toAbs, m.constrs, m.obj, m.sense⟩

/-- The raw tables of the spec's worked example: Tasks T1 (Time 4) and
T2 (Time 3); Resources R1 and R2 (AvailableTime 5 each, CostPerHour 10
and 6); all four compatibility pairs. -/
def rdEx : RawData :=
  ⟨⟨["Time"], [("T1", [("Time", some 4)]), ("T2", [("Time", some 3)])]⟩,
    ⟨["AvailableTime", "CostPerHour"],
      [("R1", [("AvailableTime", some 5), ("CostPerHour", some 10)]),
        ("R2", [("AvailableTime", some 5), ("CostPerHour", some 6)])]⟩,
    ⟨[],
      [(("R1", "T1"), []), (("R1", "T2"), []),
        (("R2", "T1"), []), (("R2", "T2"), [])]⟩⟩

/-- The spec's worked example as a `ModelData`: the image of `rdEx` under
the transform (costs 40, 30, 24, 18). -/
def mdEx : ModelData :=
  ⟨⟨["Time"], [("T1", [("Time", some 4)]), ("T2", [("Time", some 3)])]⟩,
    ⟨["AvailableTime"],
      [("R1", [("AvailableTime", some 5)]),
        ("R2", [("AvailableTime", some 5)])]⟩,
    ⟨["Cost"],
      [(("R1", "T1"), [("Cost", some 40)]),
        (("R1", "T2"), [("Cost", some 30)]),
        (("R2", "T1"), [("Cost", some 24)]),
        (("R2", "T2"), [("Cost", some 18)])]⟩⟩

/-- A `ModelData` whose compatibility index contains keys with embedded
commas: the distinct pairs ("a,b", "c") and ("a", "b,c"). -/
def mdComma : ModelData :=
  ⟨⟨["Time"], []⟩, ⟨["AvailableTime"], []⟩,
    ⟨[], [(("a,b", "c"), []), (("a", "b,c"), [])]⟩⟩

/-- Raw data whose total task time (10) exceeds total available time
(4 + 3 = 7). -/
def rdC8 : RawData :=
  ⟨⟨["Time"], [("T1", [("Time", some 10)])]⟩,
    ⟨["AvailableTime"],
      [("R1", [("AvailableTime", some 4)]),
        ("R2", [("AvailableTime", some 3)])]⟩,
    ⟨[], [(("R1", "T1"), [])]⟩⟩

/-- Raw data in which task T1 appears in no compatibility row, yet the
compatibility table references two task keys (A and B) that are not in
Tasks, so it has more distinct task keys than Tasks has rows. -/
def rdDangling : RawData :=
  ⟨⟨["Time"], [("T1", [("Time", some 1)])]⟩,
    ⟨["AvailableTime"], [("R1", [("AvailableTime", some 5)])]⟩,
    ⟨[], [(("R1", "A"), []), (("R1", "B"), [])]⟩⟩

/-- Raw data with two tasks, neither appearing in the (empty)
compatibility table. -/
def rdTwoMissing : RawData :=
  ⟨⟨["Time"], [("TA", [("Time", some 1)]), ("TB", [("Time", some 1)])]⟩,
    ⟨["AvailableTime"], [("R1", [("AvailableTime", some 5)])]⟩,
    ⟨[], []⟩⟩

/-- One admissible Python-set enumeration: distinct elements in first-seen
order. -/
def enumFwd (l : List String) : List String := l.dedup

/-- Another admissible Python-set enumeration: distinct elements in
reversed first-seen order. -/
def enumRev (l : List String) : List String := l.dedup.reverse

/-- Raw data with tasks T1 and T2 of which only T1 appears in the
compatibility table, and no dangling compatibility reference. -/
def rdW9 : RawData :=
  ⟨⟨["Time"], [("T1", [("Time", some 1)]), ("T2", [("Time", some 2)])]⟩,
    ⟨["AvailableTime"], [("R1", [("AvailableTime", some 9)])]⟩,
    ⟨[], [(("R1", "T1"), [])]⟩⟩

section LookupLemmas

variable {σ β γ : Type} [DecidableEq σ]

theorem alookup_eq_none {l : List (σ × β)} {k : σ}
    (h : k ∉ l.map Prod.fst) : alookup l k = none := by
  induction l with
  | nil => rfl
  | cons x xs ih =>
    simp only [List.map_cons, List.mem_cons, not_or] at h
    have hx : ¬ x.1 = k := fun e => h.1 e.symm
    simp only [alookup, if_neg hx]
    exact ih h.2

theorem alookup_isSome {l : List (σ × β)} {k : σ}
    (h : k ∈ l.map Prod.fst) : ∃ v, alookup l k = some v := by
  induction l with
  | nil => simp at h
  | cons x xs ih =>
    by_cases hx : x.1 = k
    · exact ⟨x.2, by simp [alookup, hx]⟩
    · simp only [List.map_cons, List.mem_cons] at h
      rcases h with h | h
      · exact absurd h.symm hx
      · obtain ⟨v, hv⟩ := ih h
        exact ⟨v, by simpa [alookup, hx] using hv⟩

theorem alookup_mem {l : List (σ × β)} {k : σ} {v : β}
    (h : alookup l k = some v) : (k, v) ∈ l := by
  induction l with
  | nil => simp [alookup] at h
  | cons x xs ih =>
    rcases x with ⟨a, b⟩
    by_cases hx : a = k
    · subst hx
      have hb : b = v := by simpa [alookup] using h
      subst hb
      exact List.mem_cons_self _ _
    · have htail : alookup xs k = some v := by simpa [alookup, hx] using h
      exact List.mem_cons_of_mem _ (ih htail)

theorem alookup_append_right {l₁ l₂ : List (σ × β)} {k : σ}
    (h : k ∉ l₁.map Prod.fst) : alookup (l₁ ++ l₂) k = alookup l₂ k := by
  induction l₁ with
  | nil => rfl
  | cons x xs ih =>
    simp only [List.map_cons, List.mem_cons, not_or] at h
    have hx : ¬ x.1 = k := fun e => h.1 e.symm
    simp only [List.cons_append, alookup, if_neg hx]
    exact ih h.2

theorem alookup_append_left {l₁ l₂ : List (σ × β)} {k : σ} {v : β}
    (h : alookup l₁ k = some v) : alookup (l₁ ++ l₂) k = some v := by
  induction l₁ with
  | nil => simp [alookup] at h
  | cons x xs ih =>
    by_cases hx : x.1 = k
    · simp only [alookup, if_pos hx] at h ⊢
      exact h
    · simp only [alookup, if_neg hx] at h
      simp only [List.cons_append, alookup, if_neg hx]
      exact ih h

theorem alookup_map_snd (l : List (σ × β)) (g : β → γ) (k : σ) :
    alookup (l.map (fun x => (x.1, g x.2))) k = (alookup l k).map g := by
  induction l with
  | nil => rfl
  | cons x xs ih =>
    by_cases hx : x.1 = k <;> simp [alookup, hx, ih]

theorem filter_key_eq (l : List (σ × β)) (k : σ)
    (h : (l.map Prod.fst).Nodup) :
    l.filter (fun x => x.1 = k) = (alookup l k).elim [] (fun v => [(k, v)]) := by
  induction l with
  | nil => rfl
  | cons x xs ih =>
    simp only [List.map_cons, List.nodup_cons] at h
    rcases x with ⟨a, b⟩
    by_cases hx : a = k
    · subst hx
      have hnone : xs.filter (fun y => decide (y.1 = a)) = [] := by
        apply List.filter_eq_nil_iff.mpr
        intro y hy hyk
        apply h.1
        have hya : y.1 = a := by simpa using hyk
        rw [← hya]
        exact List.mem_map.mpr ⟨y, hy, rfl⟩
      simp [List.filter_cons, alookup, hnone]
    · simp [List.filter_cons, alookup, hx, ih h.2]

theorem flatMap_single {α β₂ : Type} (l : List α) (f : α → β₂) :
    l.flatMap (fun a => [f a]) = l.map f := by
  induction l with
  | nil => rfl
  | cons a as ih => simp [ih]

end LookupLemmas

section RowLemmas

theorem TRow.get_append_right {r₁ r₂ : TRow} {c : String}
    (h : c ∉ r₁.map Prod.fst) : (r₁ ++ r₂).get c = r₂.get c := by
  unfold TRow.get
  rw [alookup_append_right h]

theorem TRow.get_append_left {r₁ r₂ : TRow} {c : String} {v : Cell}
    (h : alookup r₁ c = some v) : (r₁ ++ r₂).get c = v := by
  unfold TRow.get
  rw [alookup_append_left h]
  rfl

theorem TRow.get_set_self (r : TRow) (c : String) (v : Cell) :
    (r.set c v).get c = v := by
  by_cases hany : r.any (fun p => decide (p.1 = c)) = true
  · rw [TRow.set, if_pos hany]
    revert hany
    induction r with
    | nil => intro hany; simp at hany
    | cons x xs ih =>
      intro hany
      by_cases hx : x.1 = c
      · simp [TRow.get, alookup, hx]
      · have htail : xs.any (fun p => decide (p.1 = c)) = true := by
          simpa [hx] using hany
        simp only [List.map_cons, if_neg hx]
        simp only [TRow.get, alookup, if_neg hx] at ih ⊢
        exact ih htail
  · rw [TRow.set, if_neg hany]
    have hmem : c ∉ r.map Prod.fst := by
      intro hc
      rcases List.mem_map.mp hc with ⟨p, hp, hpc⟩
      exact hany (List.any_eq_true.mpr ⟨p, hp, by simp [hpc]⟩)
    rw [TRow.get, alookup_append_right hmem]
    simp [alookup]

end RowLemmas

section FrameLemmas

/-- Under a unique right index, a left join keeps each left row once,
appending the matching right row (or all-NaN right columns). -/
theorem Frame.leftJoinCols_rows {κ σ : Type} [DecidableEq σ]
    (left : Frame κ) (right : Frame σ) (key : κ → σ)
    (h : right.keys.Nodup) :
    (left.leftJoinCols right key).rows =
      left.rows.map (fun lr => (lr.1, lr.2 ++
        (alookup right.rows (key lr.1)).getD
          (right.cols.map (fun c => (c, (none : Cell)))))) := by
  have aux : ∀ rows : List (κ × TRow),
      (rows.flatMap (fun lr =>
        match right.rows.filter (fun rr => rr.1 = key lr.1) with
        | [] => [(lr.1, lr.2 ++ right.cols.map (fun c => (c, (none : Cell))))]
        | ms => ms.map (fun rr => (lr.1, lr.2 ++ rr.2)))) =
      rows.map (fun lr => (lr.1, lr.2 ++
        (alookup right.rows (key lr.1)).getD
          (right.cols.map (fun c => (c, (none : Cell)))))) := by
    intro rows
    induction rows with
    | nil => rfl
    | cons a l ih =>
      rw [List.flatMap_cons, ih, List.map_cons]
      rw [filter_key_eq _ _ h]
      cases alookup right.rows (key a.1) <;> simp
  exact aux left.rows

theorem Frame.project_keys {κ : Type} (f : Frame κ) (cs : List String) :
    (f.project cs).keys = f.keys := by
  simp [Frame.project, Frame.keys, List.map_map]

theorem Frame.setColWith_keys {κ : Type} (f : Frame κ) (c : String)
    (g : TRow → Cell) : (f.setColWith c g).keys = f.keys := by
  simp [Frame.setColWith, Frame.keys, List.map_map]

/-- Reading a projected frame through `alookup`: projection rewrites each
row in place, so lookups commute with it. -/
theorem Frame.alookup_project_rows {κ : Type} [DecidableEq κ]
    (f : Frame κ) (cs : List String) (k : κ) :
    alookup (f.project cs).rows k =
      (alookup f.rows k).map (fun row => cs.map (fun c => (c, row.get c))) := by
  show alookup (f.rows.map (fun x =>
    (x.1, (fun row => cs.map (fun c => (c, TRow.get row c))) x.2))) k = _
  exact alookup_map_snd f.rows (fun row => cs.map (fun c => (c, row.get c))) k

end FrameLemmas

section ModelLemmas

/-- The merge of the assignment-variable Series with a uniquely-indexed
attribute Series reduces to a per-row lookup. -/
theorem joinSeries_eq {γ : Type} (th : List (String × Cell))
    (hth : (th.map Prod.fst).Nodup)
    (av : List ((String × String) × γ)) :
    (av.flatMap (fun pv =>
      match th.filter (fun x => x.1 = pv.1.2) with
      | [] => [(pv.1, (none : Cell))]
      | ms => ms.map (fun x => (pv.1, x.2)))) =
    av.map (fun pv => (pv.1, (alookup th pv.1.2).getD none)) := by
  induction av with
  | nil => rfl
  | cons a l ih =>
    rw [List.flatMap_cons, ih, List.map_cons]
    rw [filter_key_eq _ _ hth]
    cases alookup th a.1.2 <;> simp

/-- The merge of the grouped capacity expressions with a uniquely-indexed
bound Series yields exactly one constraint per group key. -/
theorem gammaGroup_eq (ah : List (String × Cell))
    (hah : (ah.map Prod.fst).Nodup) (ks : List String)
    (E : String → LinExpr) (N : String → String) :
    (ks.flatMap (fun r =>
      match ah.filter (fun x => x.1 = r) with
      | [] => [(⟨E r, Cmp.le, none, N r⟩ : Constr)]
      | ms => ms.map (fun x => (⟨E r, Cmp.le, x.2, N r⟩ : Constr)))) =
    ks.map (fun r => ⟨E r, Cmp.le, (alookup ah r).getD none, N r⟩) := by
  induction ks with
  | nil => rfl
  | cons a l ih =>
    rw [List.flatMap_cons, ih, List.map_cons]
    rw [filter_key_eq _ _ hah]
    cases alookup ah a <;> simp

theorem GRB.buildMaxWorkHours_desc (th ah : List (String × Cell))
    (hth : (th.map Prod.fst).Nodup) (hah : (ah.map Prod.fst).Nodup)
    (av : List ((String × String) × GRB.Var)) :
    GRB.buildMaxWorkHours th ah av =
      (sortKeys ((av.map Prod.fst).map Prod.fst)).map (fun r =>
        ⟨((av.map Prod.fst).filter (fun p => p.1 = r)).map
            (fun p => (p, (alookup th p.2).getD none)),
          Cmp.le, (alookup ah r).getD none,
          GRB.namer1 "MaxHoursForResource" r⟩) := by
  simp only [GRB.buildMaxWorkHours]
  rw [joinSeries_eq th hth av]
  rw [gammaGroup_eq ah hah]
  simp only [List.map_map, List.filter_map]
  rfl

theorem GRB.buildOneResourcePerTask_desc
    (av : List ((String × String) × GRB.Var)) :
    GRB.buildOneResourcePerTask av =
      (sortKeys ((av.map Prod.fst).map Prod.snd)).map (fun t =>
        ⟨((av.map Prod.fst).filter (fun p => p.2 = t)).map
            (fun p => (p, (some 1 : Cell))),
          Cmp.eq, some 1, GRB.namer1 "AssignEachTaskToOneResource" t⟩) := by
  simp only [GRB.buildOneResourcePerTask]
  simp only [List.map_map, List.filter_map]
  rfl

end ModelLemmas

section ModelAssembly

theorem grb_namer1_maxhours (r : String) :
    GRB.namer1 "MaxHoursForResource" r = "MaxHoursForResource[" ++ r ++ "]" := by
  unfold GRB.namer1
  rw [show ("MaxHoursForResource" ++ "[" : String) = "MaxHoursForResource[" by decide]

theorem grb_namer1_assign (t : String) :
    GRB.namer1 "AssignEachTaskToOneResource" t =
      "AssignEachTaskToOneResource[" ++ t ++ "]" := by
  unfold GRB.namer1
  rw [show ("AssignEachTaskToOneResource" ++ "[" : String)
        = "AssignEachTaskToOneResource[" by decide]

/-- The Gurobi model's constraint list is exactly the spec's two families:
sorted per-resource capacity constraints followed by sorted per-task
exclusive-assignment constraints. -/
theorem grb_constrs_desc (md : ModelData)
    (hT : md.tasks.keys.Nodup) (hR : md.resources.keys.Nodup) :
    (GRB.buildModel md).constrs =
      specCapacityConstraints md ++ specExclusiveConstraints md := by
  have hth : ((md.tasks.col "Time").map Prod.fst).Nodup := by
    simpa [Frame.col, Frame.keys, List.map_map] using hT
  have hah : ((md.resources.col "AvailableTime").map Prod.fst).Nodup := by
    simpa [Frame.col, Frame.keys, List.map_map] using hR
  show GRB.buildMaxWorkHours _ _ _ ++ GRB.buildOneResourcePerTask _ = _
  rw [GRB.buildMaxWorkHours_desc _ _ hth hah, GRB.buildOneResourcePerTask_desc]
  have hpairs : (((GRB.buildVariables md).map (fun v => (v.idx, v))).map Prod.fst)
      = md.pairs := by
    simp only [GRB.buildVariables, List.map_map]
    show List.map (fun p : String × String => p) md.pairs = md.pairs
    simp
  rw [hpairs]
  unfold specCapacityConstraints specExclusiveConstraints
  congr 1

theorem ort_buildOneResourcePerTask_desc
    (av : List ((String × String) × ORT.Var)) :
    ORT.buildOneResourcePerTask av =
      (sortKeys ((av.map Prod.fst).map Prod.snd)).map (fun t =>
        ⟨((av.map Prod.fst).filter (fun p => p.2 = t)).map
            (fun p => (p, (some 1 : Cell))),
          Cmp.eq, some 1, ORT.namer1 "AssignEachTaskToOneResource" t⟩) := by
  simp only [ORT.buildOneResourcePerTask]
  simp only [List.map_map, List.filter_map]
  rfl

/-- The Gurobi objective Series: positional product of the Cost column with
the variable Series, one term per compatibility row. -/
theorem grb_obj_desc (md : ModelData) :
    (GRB.buildModel md).obj =
      md.tasks_for_resource.rows.map (fun r => (r.1, r.2.get "Cost")) := by
  show GRB.buildObjective _ _ = _
  simp only [GRB.buildObjective, GRB.buildVariables, Frame.col,
    ModelData.pairs, Frame.keys, List.map_map]
  rw [List.zip_map']
  simp only [List.map_map]
  rfl

/-- The OR-Tools objective Series: identical pipeline. -/
theorem ort_obj_desc (md : ModelData) :
    (ORT.buildModel md).obj =
      md.tasks_for_resource.rows.map (fun r => (r.1, r.2.get "Cost")) := by
  show ORT.buildObjective _ _ = _
  simp only [ORT.buildObjective, ORT.buildVariables, Frame.col,
    ModelData.pairs, Frame.keys, List.map_map]
  rw [List.zip_map']
  simp only [List.map_map]
  rfl

/-- Both backends assemble the same constraint list from the same
`ModelData`. -/
theorem backend_constrs_eq (md : ModelData) :
    (GRB.buildModel md).constrs = (ORT.buildModel md).constrs := by
  show GRB.buildMaxWorkHours (md.tasks.col "Time")
        (md.resources.col "AvailableTime")
        ((GRB.buildVariables md).map (fun v => (v.idx, v)))
      ++ GRB.buildOneResourcePerTask
        ((GRB.buildVariables md).map (fun v => (v.idx, v)))
    = ORT.buildMaxWorkHours (md.tasks.col "Time")
        (md.resources.col "AvailableTime")
        ((ORT.buildVariables md).map (fun v => (v.idx, v)))
      ++ ORT.buildOneResourcePerTask
        ((ORT.buildVariables md).map (fun v => (v.idx, v)))
  have h1 : ((GRB.buildVariables md).map (fun v => (v.idx, v))).map Prod.fst
      = md.pairs := by
    simp only [GRB.buildVariables, List.map_map]
    show List.map (fun p : String × String => p) md.pairs = md.pairs
    simp
  have h2 : ((ORT.buildVariables md).map (fun v => (v.idx, v))).map Prod.fst
      = md.pairs := by
    simp only [ORT.buildVariables, List.map_map]
    show List.map (fun p : String × String => p) md.pairs = md.pairs
    simp
  congr 1
  · simp only [GRB.buildMaxWorkHours, ORT.buildMaxWorkHours,
      GRB.buildVariables, ORT.buildVariables, List.map_map, List.flatMap_map]
    rfl
  · rw [GRB.buildOneResourcePerTask_desc, ort_buildOneResourcePerTask_desc,
      h1, h2]
    rfl

/-- The binary `vtype` of Gurobi admits the same value set as an OR-Tools
integer variable bounded by 0 and 1. -/
theorem binary_domain_eq :
    GRB.vtypeDomain 'B' =
      {q : ℚ | 0 ≤ q ∧ q ≤ 1 ∧ (true = true → ∃ n : ℤ, (n : ℚ) = q)} := by
  unfold GRB.vtypeDomain
  rw [if_pos rfl]
  ext q
  simp only [Set.mem_setOf_eq, true_implies]
  constructor
  · rintro (rfl | rfl)
    · exact ⟨le_refl 0, by norm_num, ⟨0, by norm_num⟩⟩
    · exact ⟨by norm_num, le_refl 1, ⟨1, by norm_num⟩⟩
  · rintro ⟨h0, h1, n, hn⟩
    have hn0 : (0 : ℤ) ≤ n := by rw [← hn] at h0; exact_mod_cast h0
    have hn1 : n ≤ 1 := by rw [← hn] at h1; exact_mod_cast h1
    have hcases : n = 0 ∨ n = 1 := by omega
    rcases hcases with rfl | rfl
    · left; rw [← hn]; norm_num
    · right; rw [← hn]; norm_num

/-- Both backends declare the same abstract variables. -/
theorem backend_vars_abs_eq (md : ModelData) :
    (GRB.buildVariables md).map GRB.Var.toAbs
      = (ORT.buildVariables md).map ORT.Var.toAbs := by
  simp only [GRB.buildVariables, ORT.buildVariables, List.map_map]
  apply List.map_congr_left
  intro p _
  show AbsVar.mk p ("x[" ++ p.1 ++ "," ++ p.2 ++ "]") (GRB.vtypeDomain 'B')
      = AbsVar.mk p (ORT.namer2 "x" p)
          {q : ℚ | 0 ≤ q ∧ q ≤ 1 ∧ (true = true → ∃ n : ℤ, (n : ℚ) = q)}
  rw [binary_domain_eq]
  rfl

/-- Splitting a character list at a separator that occurs in neither
prefix is unambiguous. -/
theorem comma_append_inj (a : List Char) : ∀ a2 b b2 : List Char,
    (',') ∉ a → (',') ∉ a2 → a ++ (',') :: b = a2 ++ (',') :: b2 →
    a = a2 ∧ b = b2 := by
  induction a with
  | nil =>
    intro a2 b b2 _ ha2 h
    cases a2 with
    | nil => simpa using h
    | cons y ys =>
      simp only [List.nil_append, List.cons_append, List.cons.injEq] at h
      exact absurd (h.1 ▸ List.mem_cons_self y ys) ha2
  | cons x xs ih =>
    intro a2 b b2 ha ha2 h
    cases a2 with
    | nil =>
      simp only [List.cons_append, List.nil_append, List.cons.injEq] at h
      exact absurd (h.1 ▸ List.mem_cons_self x xs) ha
    | cons y ys =>
      simp only [List.cons_append, List.cons.injEq] at h
      have hx : (',') ∉ xs := fun hm => ha (List.mem_cons_of_mem _ hm)
      have hy : (',') ∉ ys := fun hm => ha2 (List.mem_cons_of_mem _ hm)
      obtain ⟨h1, h2⟩ := ih ys b b2 hx hy h.2
      exact ⟨by rw [h.1, h1], h2⟩

/-- The comma-joined naming scheme is injective on comma-free key pairs. -/
theorem xname_inj {r1 t1 r2 t2 : String}
    (hr1 : (',') ∉ r1.data) (hr2 : (',') ∉ r2.data)
    (h : ("x[" ++ r1 ++ "," ++ t1 ++ "]" : String)
          = "x[" ++ r2 ++ "," ++ t2 ++ "]") :
    r1 = r2 ∧ t1 = t2 := by
  have hd : ("x[".data ++ r1.data) ++ (',') :: (t1.data ++ [(']')])
      = ("x[".data ++ r2.data) ++ (',') :: (t2.data ++ [(']')]) := by
    have h0 := congrArg String.data h
    show _ = _
    simpa [List.append_assoc] using h0
  have hc1 : (',') ∉ "x[".data ++ r1.data := by
    intro hm
    rcases List.mem_append.mp hm with hm | hm
    · exact absurd hm (by decide)
    · exact hr1 hm
  have hc2 : (',') ∉ "x[".data ++ r2.data := by
    intro hm
    rcases List.mem_append.mp hm with hm | hm
    · exact absurd hm (by decide)
    · exact hr2 hm
  obtain ⟨h1, h2⟩ := comma_append_inj _ _ _ _ hc1 hc2 hd
  refine ⟨String.ext ?_, String.ext ?_⟩
  · exact List.append_cancel_left h1
  · exact List.append_cancel_right h2

end ModelAssembly

section ClaimTheorems

/-- C1.  For every `ModelData` (with the task and resource tables keyed
uniquely, as tables indexed by those keys are), `build_and_solve` of
src/solver/model.py adds exactly two constraint families: one capacity
constraint per resource appearing in the compatibility table, stating that
the sum over compatible tasks t of `Time[t] * x[r,t]` is at most
`AvailableTime[r]`, and one exclusive-assignment constraint per task
appearing in the compatibility table, stating that the sum over compatible
resources of `x[r,t]` equals 1; no other constraints are added. -/
theorem c1_two_constraint_families (md : ModelData)
    (hT : md.tasks.keys.Nodup) (hR : md.resources.keys.Nodup) :
    (GRB.buildModel md).constrs =
      specCapacityConstraints md ++ specExclusiveConstraints md :=
  grb_constrs_desc md hT hR

/-- Witness for C1 at the spec's worked example. -/
theorem c1_witness :
    mdEx.tasks.keys.Nodup ∧ mdEx.resources.keys.Nodup ∧
    (GRB.buildModel mdEx).constrs =
      specCapacityConstraints mdEx ++ specExclusiveConstraints mdEx :=
  ⟨by decide, by decide, c1_two_constraint_families mdEx (by decide) (by decide)⟩

/-- C2, counterexample.  On the compatibility index with the two distinct
pairs ("a,b", "c") and ("a", "b,c"), both backends create two variables
carrying the same name "x[a,b,c]": the comma-joined naming scheme is not
unique per pair, contradicting the claim as stated. -/
theorem c2_counterexample :
    GRB.buildVariables mdComma =
      [⟨("a,b", "c"), "x[a,b,c]", 'B'⟩, ⟨("a", "b,c"), "x[a,b,c]", 'B'⟩]
  ∧ (("a,b", "c") : String × String) ≠ ("a", "b,c")
  ∧ ORT.buildVariables mdComma =
      [⟨("a,b", "c"), "x[a,b,c]", 0, 1, true⟩,
        ⟨("a", "b,c"), "x[a,b,c]", 0, 1, true⟩] := by
  exact ⟨by decide, by decide, by decide⟩

/-- C2, amended.  Both formulators create exactly one binary decision
variable per row of the compatibility table (the Gurobi one with
`vtype = B`, the OR-Tools one as an integer variable bounded by 0 and 1),
none for absent pairs, each named `x[resource,task]` with comma-joined
index components; and the names are unique per pair provided no key
contains a comma (uniqueness fails otherwise, see the counterexample). -/
theorem c2_one_variable_per_pair (md : ModelData) :
    ((GRB.buildVariables md).map GRB.Var.idx = md.pairs
      ∧ ∀ v ∈ GRB.buildVariables md,
          v.vtype = 'B' ∧ v.name = "x[" ++ v.idx.1 ++ "," ++ v.idx.2 ++ "]")
  ∧ ((ORT.buildVariables md).map ORT.Var.idx = md.pairs
      ∧ ∀ v ∈ ORT.buildVariables md,
          v.lb = 0 ∧ v.ub = 1 ∧ v.isInt = true
            ∧ v.name = "x[" ++ v.idx.1 ++ "," ++ v.idx.2 ++ "]")
  ∧ ((∀ p ∈ md.pairs, (',') ∉ p.1.data ∧ (',') ∉ p.2.data) →
      md.pairs.Nodup →
      ((GRB.buildVariables md).map GRB.Var.name).Nodup
        ∧ ((ORT.buildVariables md).map ORT.Var.name).Nodup) := by
  refine ⟨⟨?_, ?_⟩, ⟨?_, ?_⟩, ?_⟩
  · simp only [GRB.buildVariables, List.map_map]
    show List.map (fun p : String × String => p) md.pairs = md.pairs
    simp
  · intro v hv
    obtain ⟨p, _, rfl⟩ := List.mem_map.mp hv
    exact ⟨rfl, rfl⟩
  · simp only [ORT.buildVariables, List.map_map]
    show List.map (fun p : String × String => p) md.pairs = md.pairs
    simp
  · intro v hv
    obtain ⟨p, _, rfl⟩ := List.mem_map.mp hv
    exact ⟨rfl, rfl, rfl, rfl⟩
  · intro hcf hnd
    constructor
    · show ((md.pairs.map _).map GRB.Var.name).Nodup
      rw [List.map_map]
      apply (List.nodup_map_iff_inj_on hnd).mpr
      intro p hp q hq heq
      obtain ⟨h1, h2⟩ := xname_inj (hcf p hp).1 (hcf q hq).1 heq
      cases p; cases q
      simp_all
    · show ((md.pairs.map _).map ORT.Var.name).Nodup
      rw [List.map_map]
      apply (List.nodup_map_iff_inj_on hnd).mpr
      intro p hp q hq heq
      obtain ⟨h1, h2⟩ := xname_inj (hcf p hp).1 (hcf q hq).1 heq
      cases p; cases q
      simp_all

/-- Witness for C2 (amended) at the spec's worked example. -/
theorem c2_witness :
    ((GRB.buildVariables mdEx).map GRB.Var.idx = mdEx.pairs)
  ∧ ((GRB.buildVariables mdEx).map GRB.Var.name).Nodup
  ∧ ((ORT.buildVariables mdEx).map ORT.Var.name).Nodup :=
  ⟨(c2_one_variable_per_pair mdEx).1.1,
    ((c2_one_variable_per_pair mdEx).2.2 (by decide) (by decide)).1,
    ((c2_one_variable_per_pair mdEx).2.2 (by decide) (by decide)).2⟩

/-- C3.  In both backends the objective is the minimization of the sum,
over exactly the compatibility rows, of the row's `Cost` times its
variable — no other terms, secondary objective, or weighting. -/
theorem c3_objective_min_cost (md : ModelData) :
    ((GRB.buildModel md).obj
        = md.tasks_for_resource.rows.map (fun r => (r.1, r.2.get "Cost"))
      ∧ (GRB.buildModel md).sense = Sense.minimize)
  ∧ ((ORT.buildModel md).obj
        = md.tasks_for_resource.rows.map (fun r => (r.1, r.2.get "Cost"))
      ∧ (ORT.buildModel md).sense = Sense.minimize) :=
  ⟨⟨grb_obj_desc md, rfl⟩, ⟨ort_obj_desc md, rfl⟩⟩

/-- C5.  On status Optimal both backends return the assignment table
holding exactly the pairs whose solved value exceeds 0.1, with
`IsAssigned` the solved value; pairs at or below 0.1 are dropped. -/
theorem c5_optimal_extraction (md : ModelData) (val : String × String → ℚ) :
    GRB.buildAndSolve md GRB.OPTIMAL val =
      Except.ok ⟨(md.pairs.filter (fun p => (1 : ℚ) / 10 < val p)).map
        (fun p => (p, (some (val p) : Cell)))⟩
  ∧ ORT.buildAndSolve md ORT.OPTIMAL val =
      Except.ok ⟨(md.pairs.filter (fun p => (1 : ℚ) / 10 < val p)).map
        (fun p => (p, (some (val p) : Cell)))⟩ := by
  constructor
  · simp only [GRB.buildAndSolve]
    rw [if_pos trivial]
    simp only [GRB.buildVariables, List.map_map, List.filter_map]
    rfl
  · simp only [ORT.buildAndSolve]
    rw [if_pos trivial]
    simp only [ORT.buildVariables, List.map_map, List.filter_map]
    rfl

/-- C6.  On status Infeasible both backends raise (return the error) and
produce no `SolutionData`. -/
theorem c6_infeasible_raises (md : ModelData) (val : String × String → ℚ) :
    GRB.buildAndSolve md GRB.INFEASIBLE val =
      Except.error "Model results in infeasible solution."
  ∧ ORT.buildAndSolve md ORT.INFEASIBLE val =
      Except.error "Model results in infeasible solution." :=
  ⟨rfl, rfl⟩

/-- C7, code evaluation at the failing input.  On a status that is neither
Optimal nor Infeasible (9 is Gurobi TIME_LIMIT; 1 is pywraplp FEASIBLE,
returned on a time limit), both backends return normally with a
`SolutionData` whose `IsAssigned` column is undefined (NaN) for every
pair — no error is surfaced, contradicting the claim. -/
theorem c7_unhandled_status_returns_normally :
    GRB.buildAndSolve mdEx 9 (fun _ => 0) =
      Except.ok ⟨mdEx.pairs.map (fun p => (p, (none : Cell)))⟩
  ∧ ORT.buildAndSolve mdEx 1 (fun _ => 0) =
      Except.ok ⟨mdEx.pairs.map (fun p => (p, (none : Cell)))⟩ :=
  ⟨rfl, rfl⟩

/-- C10.  Both backends formulate the same abstract model from the same
`ModelData`: same variables (index, name and admitted value set), same
constraints with the same coefficients and names, same minimization
objective. -/
theorem c10_backend_equivalence (md : ModelData) :
    (GRB.buildModel md).toAbs = (ORT.buildModel md).toAbs := by
  show AbsModel.mk _ _ _ _ = AbsModel.mk _ _ _ _
  rw [show (GRB.buildModel md).vars = GRB.buildVariables md from rfl,
    show (ORT.buildModel md).vars = ORT.buildVariables md from rfl,
    backend_vars_abs_eq md, backend_constrs_eq md, grb_obj_desc md,
    ort_obj_desc md]

theorem Frame.alookup_col {κ : Type} [DecidableEq κ]
    (f : Frame κ) (c : String) (k : κ) :
    alookup (f.col c) k = (alookup f.rows k).map (fun row => row.get c) := by
  show alookup (f.rows.map (fun x =>
    (x.1, (fun row => TRow.get row c) x.2))) k = _
  exact alookup_map_snd f.rows (fun row => row.get c) k

theorem Frame.leftJoinCols_keys {κ σ : Type} [DecidableEq σ]
    (left : Frame κ) (right : Frame σ) (key : κ → σ)
    (h : right.keys.Nodup) :
    (left.leftJoinCols right key).keys = left.keys := by
  show (left.leftJoinCols right key).rows.map Prod.fst = _
  rw [Frame.leftJoinCols_rows _ _ _ h, List.map_map]
  rfl

/-- C4.  On well-formed raw tables whose compatibility rows reference only
existing task and resource keys, the transform keeps the compatibility
index unchanged (same rows, same order, no aggregation), projects the
three tables to exactly {Time}, {AvailableTime} and {Cost}, and fills each
compatibility row's `Cost` with the resource's `CostPerHour` times the
task's `Time`. -/
theorem c4_transform_projection (rd : RawData) (hwf : rd.WF)
    (href : ∀ p ∈ rd.tasks_for_resource.keys,
      p.2 ∈ rd.tasks.keys ∧ p.1 ∈ rd.resources.keys) :
    (rd.transform_to_model_data).tasks.cols = ["Time"]
  ∧ (rd.transform_to_model_data).tasks.keys = rd.tasks.keys
  ∧ (rd.transform_to_model_data).resources.cols = ["AvailableTime"]
  ∧ (rd.transform_to_model_data).resources.keys = rd.resources.keys
  ∧ (rd.transform_to_model_data).tasks_for_resource.cols = ["Cost"]
  ∧ (rd.transform_to_model_data).tasks_for_resource.keys
      = rd.tasks_for_resource.keys
  ∧ ∀ r ∈ (rd.transform_to_model_data).tasks_for_resource.rows,
      ∃ c t, rd.cphOf r.1.1 = some c ∧ rd.timeOf r.1.2 = some t
        ∧ r.2 = [("Cost", some (c * t))] := by
  obtain ⟨hTwf, hRwf, hFwf, hTnd, hRnd, hTimeCol, hAvailCol, hCphCol,
    hdisj, hCphTfr, hCphTasks, hTsome, hRsome⟩ := hwf
  have hRpnd : (rd.resources.project ["CostPerHour"]).keys.Nodup := by
    rw [Frame.project_keys]; exact hRnd
  refine ⟨rfl, ?_, rfl, ?_, rfl, ?_, ?_⟩
  · show (rd.tasks.project ["Time"]).keys = rd.tasks.keys
    rw [Frame.project_keys]
  · show (rd.resources.project ["AvailableTime"]).keys = rd.resources.keys
    rw [Frame.project_keys]
  · show ((((rd.tasks_for_resource.leftJoinCols rd.tasks (fun p => p.2)
        ).leftJoinCols (rd.resources.project ["CostPerHour"])
          (fun p => p.1)).setColWith "Cost" _).project ["Cost"]).keys
      = rd.tasks_for_resource.keys
    rw [Frame.project_keys, Frame.setColWith_keys,
      Frame.leftJoinCols_keys _ _ _ hRpnd,
      Frame.leftJoinCols_keys _ _ _ hTnd]
  · intro r hr
    replace hr : r ∈ (((rd.tasks_for_resource.leftJoinCols rd.tasks
        (fun p => p.2)).leftJoinCols (rd.resources.project ["CostPerHour"])
        (fun p => p.1)).setColWith "Cost" (fun row =>
          (row.get "CostPerHour").bind (fun c =>
            (row.get "Time").map (fun t => c * t)))).rows.map
        (fun rr => (rr.1, ["Cost"].map (fun c => (c, rr.2.get c)))) := hr
    obtain ⟨r3, hr3, rfl⟩ := List.mem_map.mp hr
    replace hr3 : r3 ∈ ((rd.tasks_for_resource.leftJoinCols rd.tasks
        (fun p => p.2)).leftJoinCols (rd.resources.project ["CostPerHour"])
        (fun p => p.1)).rows.map (fun rr => (rr.1, rr.2.set "Cost"
          ((rr.2.get "CostPerHour").bind (fun c =>
            (rr.2.get "Time").map (fun t => c * t))))) := hr3
    obtain ⟨r2, hr2, rfl⟩ := List.mem_map.mp hr3
    rw [Frame.leftJoinCols_rows _ _ _ hRpnd] at hr2
    obtain ⟨r1, hr1, rfl⟩ := List.mem_map.mp hr2
    rw [Frame.leftJoinCols_rows _ _ _ hTnd] at hr1
    obtain ⟨lr, hlr, rfl⟩ := List.mem_map.mp hr1
    have hpair := href lr.1 (List.mem_map.mpr ⟨lr, hlr, rfl⟩)
    -- the matched task row and its Time value
    obtain ⟨trow, htrow⟩ := alookup_isSome hpair.1
    have htrow_mem := alookup_mem htrow
    have htrow_cols : trow.map Prod.fst = rd.tasks.cols :=
      hTwf.2 _ htrow_mem
    obtain ⟨tv, htv⟩ := alookup_isSome (l := trow)
      (by rw [htrow_cols]; exact hTimeCol)
    obtain ⟨τ, hτ⟩ := Option.isSome_iff_exists.mp
      (hTsome _ htrow_mem _ (alookup_mem htv))
    -- the matched resource row and its CostPerHour value
    obtain ⟨rrow, hrrow⟩ := alookup_isSome hpair.2
    have hrrow_mem := alookup_mem hrrow
    have hrrow_cols : rrow.map Prod.fst = rd.resources.cols :=
      hRwf.2 _ hrrow_mem
    obtain ⟨cv, hcv⟩ := alookup_isSome (l := rrow)
      (by rw [hrrow_cols]; exact hCphCol)
    obtain ⟨cph, hcph⟩ := Option.isSome_iff_exists.mp
      (hRsome _ hrrow_mem _ (alookup_mem hcv))
    -- the appended join rows
    have hj1 : (alookup rd.tasks.rows lr.1.2).getD
        (rd.tasks.cols.map (fun c => (c, (none : Cell)))) = trow := by
      rw [htrow]; rfl
    have hproj : alookup (rd.resources.project ["CostPerHour"]).rows lr.1.1
        = some [("CostPerHour", rrow.get "CostPerHour")] := by
      rw [Frame.alookup_project_rows, hrrow]; rfl
    have hj2 : (alookup (rd.resources.project ["CostPerHour"]).rows
          lr.1.1).getD ((rd.resources.project ["CostPerHour"]).cols.map
            (fun c => (c, (none : Cell))))
        = [("CostPerHour", rrow.get "CostPerHour")] := by
      rw [hproj]; rfl
    have hlrcols : lr.2.map Prod.fst = rd.tasks_for_resource.cols :=
      hFwf.2 _ hlr
    -- reading Time from the merged row
    have hTimeNotTfr : "Time" ∉ lr.2.map Prod.fst := by
      rw [hlrcols]; exact hdisj _ hTimeCol
    have hgetTime : TRow.get ((lr.2 ++ trow) ++
        [("CostPerHour", rrow.get "CostPerHour")]) "Time" = some τ := by
      rw [List.append_assoc, TRow.get_append_right hTimeNotTfr]
      have halk : alookup (trow ++
          [("CostPerHour", rrow.get "CostPerHour")]) "Time" = some tv :=
        alookup_append_left htv
      rw [TRow.get, halk]
      simpa using hτ
    -- reading CostPerHour from the merged row
    have hCphNotLeft : "CostPerHour" ∉ (lr.2 ++ trow).map Prod.fst := by
      rw [List.map_append, List.mem_append, hlrcols, htrow_cols]
      rintro (hm | hm)
      · exact hCphTfr hm
      · exact hCphTasks hm
    have hrrow_get : rrow.get "CostPerHour" = some cph := by
      rw [TRow.get, hcv]
      simpa using hcph
    have hgetCph : TRow.get ((lr.2 ++ trow) ++
        [("CostPerHour", rrow.get "CostPerHour")]) "CostPerHour"
        = some cph := by
      rw [TRow.get_append_right hCphNotLeft]
      simpa [TRow.get, alookup] using hrrow_get
    refine ⟨cph, τ, ?_, ?_, ?_⟩
    · rw [RawData.cphOf, Frame.alookup_col, hrrow]
      show rrow.get "CostPerHour" = some cph
      exact hrrow_get
    · rw [RawData.timeOf, Frame.alookup_col, htrow]
      show trow.get "Time" = some τ
      rw [TRow.get, htv]
      simpa using hτ
    · show ["Cost"].map (fun c => (c, TRow.get _ c)) = _
      rw [hj1, hj2]
      simp only [List.map_cons, List.map_nil]
      rw [TRow.get_set_self, hgetCph, hgetTime]
      rfl

/-- Witness for C4 at the spec's worked example raw tables. -/
theorem c4_witness :
    (rdEx.transform_to_model_data).tasks.cols = ["Time"]
  ∧ (rdEx.transform_to_model_data).tasks.keys = rdEx.tasks.keys
  ∧ (rdEx.transform_to_model_data).resources.cols = ["AvailableTime"]
  ∧ (rdEx.transform_to_model_data).resources.keys = rdEx.resources.keys
  ∧ (rdEx.transform_to_model_data).tasks_for_resource.cols = ["Cost"]
  ∧ (rdEx.transform_to_model_data).tasks_for_resource.keys
      = rdEx.tasks_for_resource.keys
  ∧ ∀ r ∈ (rdEx.transform_to_model_data).tasks_for_resource.rows,
      ∃ c t, rdEx.cphOf r.1.1 = some c ∧ rdEx.timeOf r.1.2 = some t
        ∧ r.2 = [("Cost", some (c * t))] :=
  c4_transform_projection rdEx (by decide) (by decide)

/-- C8, code evaluation at the failing input.  With total task time 10
against total available time 7, `validate` does record a capacity error
and does name the task total (10), but the second interpolation slot of
the message carries the whole `AvailableTime` Series — the per-resource
values 4 and 3 — not their sum 7: the code writes
`{self.resources.AvailableTime}` where the sentence means
`{self.resources.AvailableTime.sum()}`. -/
theorem c8_capacity_message_interpolates_series :
    rdC8.validate enumFwd =
      (false, [ErrMsg.capacity 10 [("R1", some 4), ("R2", some 3)]])
  ∧ seriesSum (rdC8.resources.col "AvailableTime") = 7 := by
  constructor
  · norm_num [RawData.validate, rdC8, seriesSum, Frame.col, Frame.keys,
      RawData.tfrTaskKeys, TRow.get, alookup, enumFwd]
  · norm_num [seriesSum, Frame.col, rdC8, TRow.get, alookup]

/-- C9, counterexample.  First: on `rdDangling`, task T1 appears in no
compatibility row, yet `validate` returns valid with no error, because the
coverage guard only compares the number of distinct compatibility task
keys (here 2, both dangling) against the number of task rows (1).
Second: on `rdTwoMissing`, two admissible Python-set enumeration orders
produce different outputs on identical input, so the error's order is not
determined by the input (Python set order depends on the hash seed). -/
theorem c9_counterexample :
    rdDangling.validate enumFwd = (true, [])
  ∧ "T1" ∈ rdDangling.tasks.keys
  ∧ rdDangling.tfrTaskKeys = ["A", "B"]
  ∧ "T1" ∉ rdDangling.tfrTaskKeys
  ∧ rdTwoMissing.validate enumFwd ≠ rdTwoMissing.validate enumRev
  ∧ EnumOK enumFwd ∧ EnumOK enumRev := by
  refine ⟨?_, by decide, by decide, by decide, ?_, ?_, ?_⟩
  · norm_num [RawData.validate, rdDangling, seriesSum, Frame.col,
      Frame.keys, RawData.tfrTaskKeys, TRow.get, alookup]
    decide
  · have h1 : rdTwoMissing.validate enumFwd =
        (false, [ErrMsg.coverage ["TA", "TB"]]) := by
      norm_num [RawData.validate, rdTwoMissing, seriesSum, Frame.col,
        Frame.keys, RawData.tfrTaskKeys, TRow.get, alookup, enumFwd]
      decide
    have h2 : rdTwoMissing.validate enumRev =
        (false, [ErrMsg.coverage ["TB", "TA"]]) := by
      norm_num [RawData.validate, rdTwoMissing, seriesSum, Frame.col,
        Frame.keys, RawData.tfrTaskKeys, TRow.get, alookup, enumRev]
      decide
    rw [h1, h2]
    decide
  · intro l
    exact List.Perm.refl _
  · intro l
    exact List.reverse_perm _

/-- C9, amended.  Provided every compatibility task key exists in Tasks
and the task index is unique, whenever some task key appears in no
compatibility row `validate` returns invalid — regardless of the capacity
check — and records a coverage error listing exactly the missing task
keys, in the (hash-seed dependent, hence not input-determined) enumeration
order of the Python set difference. -/
theorem c9_coverage_check (rd : RawData) (e : List String → List String)
    (he : EnumOK e)
    (href : ∀ p ∈ rd.tasks_for_resource.keys, p.2 ∈ rd.tasks.keys)
    (hmiss : ∃ t ∈ rd.tasks.keys, t ∉ rd.tfrTaskKeys) :
    (rd.validate e).1 = false
  ∧ ∃ l, ErrMsg.coverage l ∈ (rd.validate e).2
      ∧ ∀ t, t ∈ l ↔ (t ∈ rd.tasks.keys ∧ t ∉ rd.tfrTaskKeys) := by
  obtain ⟨t0, ht0mem, ht0not⟩ := hmiss
  have hsub : rd.tfrTaskKeys ⊆ rd.tasks.keys := by
    intro x hx
    rcases List.mem_map.mp (List.mem_dedup.mp hx) with ⟨p, hp, rfl⟩
    exact href p hp
  have hndk : rd.tfrTaskKeys.Nodup := List.nodup_dedup _
  have hcons : (t0 :: rd.tfrTaskKeys).Nodup :=
    List.nodup_cons.mpr ⟨ht0not, hndk⟩
  have hconsub : (t0 :: rd.tfrTaskKeys) ⊆ rd.tasks.keys := by
    intro x hx
    rcases List.mem_cons.mp hx with rfl | hx
    · exact ht0mem
    · exact hsub hx
  have hguard : rd.tfrTaskKeys.length < rd.tasks.keys.length := by
    have hle := (List.subperm_of_subset hcons hconsub).length_le
    simpa using hle
  constructor
  · show (if rd.tfrTaskKeys.length < rd.tasks.keys.length
        then (false, _) else _).1 = false
    rw [if_pos hguard]
  · refine ⟨e (rd.tasks.keys.filter (fun t => t ∉ rd.tfrTaskKeys)),
      ?_, ?_⟩
    · show ErrMsg.coverage _ ∈ (if rd.tfrTaskKeys.length
          < rd.tasks.keys.length then (false, _) else _).2
      rw [if_pos hguard]
      exact List.mem_append_right _ (List.mem_singleton.mpr rfl)
    · intro t
      rw [List.Perm.mem_iff (he _), List.mem_dedup, List.mem_filter]
      simp

/-- Witness for C9 (amended) at `rdW9`, where T2 has no compatibility
row. -/
theorem c9_witness :
    (rdW9.validate enumFwd).1 = false
  ∧ ∃ l, ErrMsg.coverage l ∈ (rdW9.validate enumFwd).2
      ∧ ∀ t, t ∈ l ↔ (t ∈ rdW9.tasks.keys ∧ t ∉ rdW9.tfrTaskKeys) :=
  c9_coverage_check rdW9 enumFwd (fun _ => List.Perm.refl _)
    (by decide) ⟨"T2", by decide, by decide⟩

end ClaimTheorems
